import Mathlib

/-!
Shallow embedding of the schema/type-string synthesis engine of the
`ts-rs-bincode` repository (files `src/macros/src/schem.rs` and
`src/macros/src/lib.rs`), together with theorems settling the claims about it.

Conventions used throughout:
* Rust `String` values are Lean `String`; character-level algorithms work on
  `List Char` obtained via `String.data`/`String.toList`.
* `syn::Type` expressions are modelled by the inductive `RsType` below.  A
  single untyped inductive covers types, path-segment lists and
  generic-argument lists so that every function over it is structural and
  therefore evaluable by `decide`/`rfl`.
* Functions whose Rust originals recurse through non-structural positions
  (`process_type`, `replace_types`) take an explicit fuel argument; the
  public wrappers supply fuel that exceeds the recursion depth of the Rust
  original, so the wrappers agree with the source on every input the source
  terminates on.
* Rust `panic!` is modelled by `Option`: `none` means the panic was reached.
* Rust's `HashMap<String, String>` field `def` is modelled as an association
  list `List (String × String)` whose order stands for the (unspecified)
  iteration order of the hash map; `insert` updates an existing key in place
  and appends a fresh key.
-/

set_option maxRecDepth 40000

/-! ### Character and list helpers (Rust `str` methods) -/

/-- Rust `c.is_alphanumeric() || c == '_'`, the token-character test used by
`replace_types` and `extract_type_names` (ASCII fragment of Rust's
Unicode-aware `is_alphanumeric`). -/
def isTokChar (c : Char) : Bool := c.isAlphanum || c == '_'

/-- Rust `str::replace(" ", "")`, i.e. delete every space character. -/
def removeSpacesL (s : List Char) : List Char := s.filter (fun c => c ≠ ' ')

/-- Rust `str::replace(" ", "")` on `String`. -/
def removeSpaces (s : String) : String := ⟨removeSpacesL s.data⟩

/-- Rust `str::replace("\n", "")`, i.e. delete every newline character. -/
def removeNewlines (s : String) : String := ⟨s.data.filter (fun c => c ≠ '\n')⟩

/-- Whether `pat` is a prefix of `s` (Rust `str::starts_with`). -/
def isPrefixL : List Char → List Char → Bool
  | [], _ => true
  | _ :: _, [] => false
  | p :: ps, c :: cs => p == c && isPrefixL ps cs

/-- Index of the first occurrence of `pat` in `s` (Rust `str::find`). -/
def findSubL : List Char → List Char → Option Nat
  | [], pat => if pat.isEmpty then some 0 else none
  | c :: cs, pat =>
    if isPrefixL pat (c :: cs) then some 0
    else (findSubL cs pat).map (· + 1)

/-- Rust `str::find` on `String`s. -/
def findSub (s pat : String) : Option Nat := findSubL s.data pat.data

/-- Rust `str::contains` on `String`s. -/
def hasSub (s pat : String) : Bool := (findSub s pat).isSome

/-- Fueled worker for `replaceAll`: replaces non-overlapping occurrences of
`pat` left to right, as Rust `str::replace` does.  Each step consumes at
least one character, so fuel `s.length` always suffices. -/
def replaceAllL : Nat → List Char → List Char → List Char → List Char
  | 0, s, _, _ => s
  | _ + 1, [], _, _ => []
  | n + 1, c :: cs, pat, rep =>
    if pat ≠ [] ∧ isPrefixL pat (c :: cs) then
      rep ++ replaceAllL n ((c :: cs).drop pat.length) pat rep
    else c :: replaceAllL n cs pat rep

/-- Rust `str::replace(pat, rep)` (call sites in the sources never pass an
empty pattern). -/
def replaceAll (s pat rep : String) : String :=
  ⟨replaceAllL s.data.length s.data pat.data rep.data⟩

/-- Split at every occurrence of a single character (Rust `str::split(',')`
and the like). -/
def splitCharGo (c : Char) (acc : List Char) : List Char → List (List Char)
  | [] => [acc.reverse]
  | d :: ds => if d == c then acc.reverse :: splitCharGo c [] ds else splitCharGo c (d :: acc) ds

/-- Rust `str::split(c)` on a `String`, yielding the parts in order. -/
def splitChar (s : String) (c : Char) : List String :=
  (splitCharGo c [] s.data).map (fun l => ⟨l⟩)

/-- Fueled worker for `splitStr`: Rust `str::split(pat)` with a multi-character
pattern (non-overlapping, left to right). -/
def splitStrL : Nat → List Char → List Char → List (List Char)
  | 0, s, _ => [s]
  | _ + 1, [], _ => [[]]
  | n + 1, c :: cs, pat =>
    if pat ≠ [] ∧ isPrefixL pat (c :: cs) then
      [] :: splitStrL n ((c :: cs).drop pat.length) pat
    else
      match splitStrL n cs pat with
      | [] => [[c]]
      | h :: t => (c :: h) :: t

/-- Rust `str::split(pat)` on `String`s. -/
def splitStr (s pat : String) : List String :=
  (splitStrL s.data.length s.data pat.data).map (fun l => ⟨l⟩)

/-- Rust `str::trim` (drop whitespace from both ends). -/
def trimStr (s : String) : String :=
  ⟨((s.data.dropWhile Char.isWhitespace).reverse.dropWhile Char.isWhitespace).reverse⟩

/-- Rust `str::trim_matches('"')` (drop all leading and trailing `"`). -/
def trimQuotes (s : String) : String :=
  ⟨((s.data.dropWhile (· == '"')).reverse.dropWhile (· == '"')).reverse⟩

/-- Rust `str::trim_end_matches('_')`. -/
def trimEndUnderscores (s : String) : String :=
  ⟨(s.data.reverse.dropWhile (· == '_')).reverse⟩

/-- Rust `str::trim_start_matches('_')`. -/
def trimStartUnderscores (s : String) : String :=
  ⟨s.data.dropWhile (· == '_')⟩

/-- Concatenate with a separator (Rust `Vec::join`). -/
def joinSep (sep : String) : List String → String
  | [] => ""
  | [x] => x
  | x :: y :: rest => x ++ sep ++ joinSep sep (y :: rest)

/-- Concatenation of a list of strings (Rust `collect::<String>`-style). -/
def concatAll : List String → String
  | [] => ""
  | s :: rest => s ++ concatAll rest

/-- ASCII upper-casing of a string (Rust `str::to_uppercase`; the identifiers
this is applied to are ASCII). -/
def upperStr (s : String) : String := ⟨s.data.map Char.toUpper⟩

/-- ASCII lower-casing of a string (Rust `str::to_lowercase`). -/
def lowerStr (s : String) : String := ⟨s.data.map Char.toLower⟩

/-! ### The type-expression model (`syn::Type`)

A single untyped inductive models the three syntactic sorts the engine
consumes: type expressions, path-segment lists and generic-argument lists.

* `path segs` — `syn::Type::Path`; `segs` must be built from `snil`/`scons`.
* `tuple elems` — `syn::Type::Tuple`; `elems` built from `tnil`/`tcons`.
* `arr elem len` — `syn::Type::Array` with element type `elem` and length
  token text `len`.
* `scons name args rest` — one path segment with identifier `name` and
  angle-bracketed generic arguments `args` (built from `tnil`/`tcons`;
  `tnil` means the segment has no angle brackets), followed by the remaining
  segments `rest`.
* `tcons head tail` — a generic-argument (or tuple-element) list cell.
-/

inductive RsType where
  | path (segs : RsType)
  | tuple (elems : RsType)
  | arr (elem : RsType) (len : String)
  | snil
  | scons (name : String) (args : RsType) (rest : RsType)
  | tnil
  | tcons (head : RsType) (tail : RsType)
deriving DecidableEq, Repr

/-- Rust `to_token_stream().to_string()` of a type expression: tokens joined by
single spaces, path separators rendered ` :: `, generic arguments
` < a , b > `-style, exactly as `proc_macro2` displays them (compare the
expected value `"MyObject < Params , T >"` in the source's tests).  On the
list sorts the function renders the list itself, so `path`/`tuple` simply
delegate. -/
def tokStr : RsType → String
  | .path segs => tokStr segs
  | .tuple elems => "(" ++ tokStr elems ++ ")"
  | .arr elem len => "[" ++ tokStr elem ++ " ; " ++ len ++ "]"
  | .snil => ""
  | .scons name args .snil =>
    (match args with
     | .tnil => name
     | _ => name ++ " < " ++ tokStr args ++ " >")
  | .scons name args rest =>
    (match args with
     | .tnil => name
     | _ => name ++ " < " ++ tokStr args ++ " >") ++ " :: " ++ tokStr rest
  | .tnil => ""
  | .tcons head .tnil => tokStr head
  | .tcons head tail => tokStr head ++ " , " ++ tokStr tail

/-- Rust `simplify_type` from `remove_create_type_path` (schem.rs lines 455-478):
for a path, keep only the last segment and recursively simplify its generic
arguments, joining them with `", "`; for any other type shape, fall back to
the token-stream text.  On the segment-list sort it walks to the last
segment; on the argument-list sort it renders the comma-joined arguments. -/
def simplifyType : RsType → String
  | .path segs => simplifyType segs
  | .tuple elems => tokStr (.tuple elems)
  | .arr elem len => tokStr (.arr elem len)
  | .snil => ""
  | .scons name args .snil =>
    (match args with
     | .tnil => name
     | _ => name ++ "<" ++ simplifyType args ++ ">")
  | .scons _ _ (.scons m a r) => simplifyType (.scons m a r)
  | .scons name args _ =>
    (match args with
     | .tnil => name
     | _ => name ++ "<" ++ simplifyType args ++ ">")
  | .tnil => ""
  | .tcons head .tnil => simplifyType head
  | .tcons head tail => simplifyType head ++ ", " ++ simplifyType tail

/-- Rust `remove_create_type_path` (schem.rs lines 454-481), applied to the
segment list of a `Type::Path`. -/
def remove_create_type_path (segs : RsType) : String := simplifyType (.path segs)

/-- Number of path segments (`type_path.path.segments.len()`). -/
def segsLen : RsType → Nat
  | .scons _ _ rest => 1 + segsLen rest
  | _ => 0

/-- Identifier of the first path segment (`segments.first().unwrap().ident`). -/
def firstSegName : RsType → String
  | .scons name _ _ => name
  | _ => ""

/-- Identifier of the last path segment (`segments.last().unwrap().ident`). -/
def lastSegName : RsType → String
  | .scons _ _ (.scons m a r) => lastSegName (.scons m a r)
  | .scons name _ _ => name
  | _ => ""

/-- Generic arguments of the last path segment (`last_segment.arguments`;
`tnil` when the segment has no angle brackets). -/
def lastSegArgs : RsType → RsType
  | .scons _ _ (.scons m a r) => lastSegArgs (.scons m a r)
  | .scons _ args _ => args
  | _ => .tnil

/-- Structural size of a type expression, used as fuel for `process_type`. -/
def astSize : RsType → Nat
  | .path segs => astSize segs + 1
  | .tuple elems => astSize elems + 1
  | .arr elem _ => astSize elem + 1
  | .snil => 1
  | .scons _ args rest => astSize args + astSize rest + 1
  | .tnil => 1
  | .tcons head tail => astSize head + astSize tail + 1

/-- Rust `is_primitive_type` (schem.rs lines 625-646). -/
def is_primitive_type (type_string : String) : Bool :=
  type_string == "usize" || type_string == "isize" ||
  type_string == "i8" || type_string == "i16" ||
  type_string == "i32" || type_string == "i64" ||
  type_string == "u8" || type_string == "u16" ||
  type_string == "u32" || type_string == "u64" ||
  type_string == "f32" || type_string == "f64" ||
  type_string == "bool" || type_string == "char" ||
  type_string == "String" || type_string == "Uuid" ||
  type_string == "NaiveDateTime"

/-! ### The `Schema` data model (schem.rs lines 6-175) -/

/-- Rust `SchemaType` (schem.rs lines 6-10). -/
inductive SchemaType where
  | Enum
  | Struct
deriving DecidableEq, Repr

/-- Rust `SchemaFieldRef` (schem.rs lines 12-17). -/
inductive SchemaFieldRef where
  | Type (s : String)
  | Refs (s : String)
  | ItemsRefs (s : String)
deriving DecidableEq, Repr

/-- Rust `SchemaFieldRef::to_string` (schem.rs lines 32-40). -/
def SchemaFieldRef.to_string : SchemaFieldRef → String
  | .Type s => s
  | .Refs s => s
  | .ItemsRefs s => s

/-- Rust `SchemaField` (schem.rs lines 19-23). -/
structure SchemaField where
  name : String
  sref : SchemaFieldRef
deriving DecidableEq, Repr

/-- Rust `SchemaVariant` (schem.rs lines 25-30).  The discriminant is stored after
`add_variant`'s literal parsing: `some d` for an explicit integer literal
discriminant, `none` otherwise.  The source stores an `i32`
(`base10_parse::<i32>` aborts on an out-of-range literal); the model uses
unbounded `Int` and does not model the overflow of `variant_index + 1` at
`i32::MAX`, where the source would panic in debug builds. -/
structure SchemaVariant where
  name : String
  fields : List SchemaField
  discriminant : Option Int
deriving DecidableEq, Repr

/-- Rust `Schema` (schem.rs lines 57-69).  The Rust field `def` is called `defs`
here (`def` is a Lean keyword); it models the `HashMap<String, String>` as an
association list in iteration order. -/
structure Schema where
  name : String
  generics : List String
  parent_generics : List String
  stype : SchemaType
  fields : List SchemaField
  variants : List SchemaVariant
  defs : List (String × String)
deriving DecidableEq, Repr

/-- Rust `Schema::new` (schem.rs lines 72-82). -/
def Schema.new (name : String) (stype : SchemaType) : Schema :=
  { name, generics := [], parent_generics := [], stype,
    fields := [], variants := [], defs := [] }

/-- Rust `HashMap::insert`: update an existing key's value in place, or append a
fresh key at the end of the iteration order. -/
def hmInsert (m : List (String × String)) (k v : String) : List (String × String) :=
  if m.any (fun kv => kv.1 == k) then
    m.map (fun kv => if kv.1 == k then (k, v) else kv)
  else m ++ [(k, v)]

/-- Rust `HashMap::contains_key`. -/
def hmContainsKey (m : List (String × String)) (k : String) : Bool :=
  m.any (fun kv => kv.1 == k)

/-- Rust `hashmap_to_hashset` (schem.rs lines 548-550): the key set of the
definition table. -/
def hashmap_to_hashset (m : List (String × String)) : List String :=
  m.map Prod.fst

/-- Rust `Schema::add_parent_generics` (schem.rs lines 85-91).  Note that it
deduplicates only against `parent_generics` itself, not against `generics`. -/
def Schema.add_parent_generics (s : Schema) (parent_generics : List String) : Schema :=
  parent_generics.foldl
    (fun s g =>
      if s.parent_generics.contains g then s
      else { s with parent_generics := s.parent_generics ++ [g] })
    s

/-- Rust `Schema::parse_parent_generics_from_schema` (schem.rs lines 94-117):
look for the literal marker `"parent_generics":[`, take the text up to the
next `]`, split it at commas, trim whitespace and quotes, keep the non-empty
items. -/
def parse_parent_generics_from_schema (schema_str : String) : List String :=
  match findSub schema_str "\"parent_generics\":[" with
  | none => []
  | some start_idx =>
    let array_start := start_idx + "\"parent_generics\":[".length
    let tail : List Char := schema_str.data.drop array_start
    match findSubL tail [']'] with
    | none => []
    | some array_end =>
      let array_content : String := ⟨tail.take array_end⟩
      ((splitChar array_content ',').map (fun item => trimQuotes (trimStr item))).filter
        (fun clean_item => clean_item ≠ "")

/-- Rust `Schema::add_generic` (schem.rs lines 119-124); the `Ident` argument is
modelled by its string. -/
def Schema.add_generic (s : Schema) (ident : String) : Schema :=
  if s.generics.contains ident then s
  else { s with generics := s.generics ++ [ident] }

/-- The skip condition opening `process_type` (schem.rs lines 181-185):
primitive types and local or parent generic parameters are left alone. -/
def skipType (s : Schema) (type_string : String) : Bool :=
  is_primitive_type type_string || s.generics.contains type_string ||
    s.parent_generics.contains type_string

/-- Fueled `Schema::process_type` (schem.rs lines 177-252).  On the
argument-list sort (`tcons`/`tnil`) it performs the source's `for arg in
&args.args` loop.  Fuel only bounds the recursion depth; `process_type`
supplies `astSize stype`, which exceeds it. -/
def process_typeF : Nat → Schema → RsType → Schema
  | 0, s, _ => s
  | n + 1, s, RsType.tcons head tail => process_typeF n (process_typeF n s head) tail
  | _ + 1, s, RsType.tnil => s
  | n + 1, s, RsType.path segs =>
    if skipType s (tokStr (RsType.path segs)) then s
    else if 1 < segsLen segs && s.generics.contains (firstSegName segs) then s
    else
      let ident := lastSegName segs
      if ident == "Option" || ident == "Vec" || ident == "Result" || ident == "HashMap" then
        process_typeF n s (lastSegArgs segs)
      else
        let s' := { s with
          defs := hmInsert s.defs
            (removeSpaces (remove_create_type_path segs))
            (removeSpaces (tokStr (RsType.path segs))) }
        process_typeF n s' (lastSegArgs segs)
  | n + 1, s, RsType.tuple elems =>
    if skipType s (tokStr (RsType.tuple elems)) then s
    else process_typeF n s elems
  | _ + 1, s, _ => s

/-- Rust `Schema::process_type` with adequate fuel. -/
def Schema.process_type (s : Schema) (stype : RsType) : Schema :=
  process_typeF (astSize stype) s stype

/-- The field-reference classification shared by `add_field` and
`add_variant_field` (schem.rs lines 167-173 and 258-264). -/
def mkFieldRef (stype : RsType) : SchemaFieldRef :=
  match stype with
  | .arr elem _ => SchemaFieldRef.ItemsRefs (tokStr elem)
  | .path segs => SchemaFieldRef.Refs (remove_create_type_path segs)
  | _ => SchemaFieldRef.Type (tokStr stype)

/-- Rust `Schema::add_field` (schem.rs lines 254-266). -/
def Schema.add_field (s : Schema) (name : String) (stype : RsType) : Schema :=
  let s := s.process_type stype
  { s with fields := s.fields ++ [{ name, sref := mkFieldRef stype }] }

/-- Append a field to the last variant (`self.variants.last_mut().unwrap()`,
schem.rs line 165; the empty case cannot occur when called from
`add_variant`, which pushes the variant first). -/
def pushVariantField : List SchemaVariant → SchemaField → List SchemaVariant
  | [], _ => []
  | [v], f => [{ v with fields := v.fields ++ [f] }]
  | v :: vs, f => v :: pushVariantField vs f

/-- Rust `Schema::add_variant_field` (schem.rs lines 163-175). -/
def Schema.add_variant_field (s : Schema) (name : String) (stype : RsType) : Schema :=
  let s := s.process_type stype
  { s with variants := pushVariantField s.variants { name, sref := mkFieldRef stype } }

/-- Rust `Schema::add_variant` (schem.rs lines 126-161).  The `discriminant`
argument models the result of the source's literal parsing (lines 132-146):
`some d` when the variant carries an explicit integer-literal discriminant,
`none` otherwise.  Unnamed fields are passed with name `""` (line 157). -/
def Schema.add_variant (s : Schema) (name : String)
    (fields : List (String × RsType)) (discriminant : Option Int) : Schema :=
  let s := { s with variants := s.variants ++ [{ name, fields := [], discriminant }] }
  fields.foldl (fun s f => s.add_variant_field f.1 f.2) s

/-! ### The reference rewriter `replace_types` (schem.rs lines 483-546) -/

/-- Angle-bracket collection inside `replace_types`'s character loop
(schem.rs lines 510-523): consume characters into `inner_type` (including
the closing `>`) until the bracket count returns to zero, and also return
the remaining characters. -/
def collectInner (bracket_count : Nat) : List Char → (List Char × List Char)
  | [] => ([], [])
  | c :: cs =>
    if c == '<' then
      let (i, r) := collectInner (bracket_count + 1) cs
      (c :: i, r)
    else if c == '>' then
      if bracket_count == 1 then ([c], cs)
      else
        let (i, r) := collectInner (bracket_count - 1) cs
        (c :: i, r)
    else
      let (i, r) := collectInner bracket_count cs
      (c :: i, r)

/-- Fueled `replace_types` (schem.rs lines 483-546).  The flag selects the
phase: `true` is the function entry (space removal, whole-string definition
match, `::` check), `false` is the character loop.  The source slices
`&inner_type[..inner_type.len() - 1]`, which panics when `<` is the final
character; the model's `dropLast` returns `[]` there instead.  Fuel bounds
the recursion depth only; `replace_types` supplies more than enough. -/
def replace_typesF : Bool → Nat → List Char → List String → List String → List String → String
  | _, 0, cs, _, _, _ => ⟨cs⟩
  | true, n + 1, sref0, defs, generics, parent_generics =>
    let sref := removeSpacesL sref0
    if sref.isEmpty then ""
    else
      let sstr : String := ⟨sref⟩
      if defs.contains sstr && !generics.contains sstr && !parent_generics.contains sstr then
        "#/definitions/" ++ sstr
      else
        let parts := splitStrL sref.length sref [':', ':']
        if parts.length == 2 &&
            (generics.contains ⟨parts.headD []⟩ || parent_generics.contains ⟨parts.headD []⟩) then
          sstr
        else replace_typesF false n sref defs generics parent_generics
  | false, _ + 1, [], _, _, _ => ""
  | false, n + 1, c :: cs, defs, generics, parent_generics =>
    if c == '<' then
      let pr := collectInner 1 cs
      "<" ++ replace_typesF true n pr.1.dropLast defs generics parent_generics ++ ">" ++
        replace_typesF false n pr.2 defs generics parent_generics
    else if isTokChar c then
      let type_name : String := ⟨c :: cs.takeWhile isTokChar⟩
      (if defs.contains type_name && !generics.contains type_name then
        "#/definitions/" ++ type_name
       else type_name) ++
        replace_typesF false n (cs.dropWhile isTokChar) defs generics parent_generics
    else
      String.singleton c ++ replace_typesF false n cs defs generics parent_generics

/-- Rust `replace_types` with adequate fuel (the mutual recursion depth of
the source is bounded by twice the input length). -/
def replace_types (sref : String) (defs generics parent_generics : List String) : String :=
  replace_typesF true (2 * sref.length + 2) sref.data defs generics parent_generics

/-- Accumulator worker for `extract_type_names`; `acc` holds the current
token's characters in reverse. -/
def extractTypeNamesGo (acc : List Char) : List Char → List String
  | [] => if acc.isEmpty then [] else [⟨acc.reverse⟩]
  | c :: cs =>
    if isTokChar c then extractTypeNamesGo (c :: acc) cs
    else (if acc.isEmpty then [] else [⟨acc.reverse⟩]) ++ extractTypeNamesGo [] cs

/-- Rust `extract_type_names` (schem.rs lines 431-452): the maximal
alphanumeric-or-underscore runs of the string, in order (all other
characters, brackets and commas included, are skipped). -/
def extract_type_names (sref : String) : List String := extractTypeNamesGo [] sref.data

/-! ### The renderer `Schema::to_string` (schem.rs lines 268-428) -/

/-- Placeholder-identifier sanitisation used by the renderer (schem.rs lines
340-347 and 388-399) and, lower-cased, by the generated function (lib.rs
lines 295-303): every non-alphanumeric character becomes `_`, spaces are
removed (vacuous — they already became `_`; lib.rs omits this no-op step),
duplicate underscores are collapsed (two passes), leading and trailing
underscores are trimmed. -/
def sanitizeIdent (s : String) : String :=
  trimStartUnderscores (trimEndUnderscores
    (replaceAll
      (replaceAll
        (removeSpaces ⟨s.data.map (fun c => if c.isAlphanum then c else '_')⟩)
        "__" "_")
      "__" "_"))

/-- Upper-cased sanitised identifier (the renderer's `def_name`/`_def`). -/
def sanitizeUpper (s : String) : String := upperStr (sanitizeIdent s)

/-- Lower-cased sanitised identifier (the generated function's dependency
variable name, lib.rs lines 295-303). -/
def sanitizeLower (s : String) : String := lowerStr (sanitizeIdent s)

/-- Header of the rendered document (schem.rs lines 271-282). -/
def headerPart (s : Schema) : String :=
  "\x7b\n  \"type\": \"" ++
    (match s.stype with | SchemaType.Enum => "enum" | SchemaType.Struct => "struct") ++
    "\",\n  \"name\": \"" ++ s.name ++ "\",\n  \"" ++
    (match s.stype with | SchemaType.Enum => "variants" | SchemaType.Struct => "fields") ++
    "\": [\n"

/-- One struct-field entry (schem.rs lines 287-296). -/
def structFieldEntry (s : Schema) (field : SchemaField) : String :=
  let final_type :=
    removeSpaces
      (replace_types field.sref.to_string (hashmap_to_hashset s.defs) s.generics
        s.parent_generics)
  "    \x7b\n      \"name\": \"" ++ field.name ++ "\",\n      \"type\": \"" ++
    final_type ++ "\"\n    \x7d,\n"

/-- Variant-field entries with the running positional index (schem.rs lines
312-329): an empty field name is replaced by the index. -/
def variantFieldsLoop (s : Schema) : Int → List SchemaField → String
  | _, [] => ""
  | index, field :: rest =>
    let name := if field.name = "" then toString index else field.name
    let final_type :=
      removeSpaces
        (replace_types field.sref.to_string (hashmap_to_hashset s.defs) s.generics
          s.parent_generics)
    "        \x7b\n          \"name\": \"" ++ name ++ "\",\n          \"type\": \"" ++
        final_type ++ "\"\n        \x7d,\n" ++
      variantFieldsLoop s (index + 1) rest

/-- Per-variant definitions entry for one field (schem.rs lines 335-374):
if the space-stripped reference is itself a definition key (and not a local
generic), emit its placeholder line; otherwise emit a placeholder line for
each extracted type name that is a definition key (and not a local generic),
silently skipping the rest. -/
def variantDefEntry (s : Schema) (field : SchemaField) : String :=
  let sref := removeSpaces field.sref.to_string
  if hmContainsKey s.defs sref && !s.generics.contains sref then
    "    \"" ++ removeSpaces (removeNewlines sref) ++ "\": &&&" ++ sanitizeUpper sref ++
      "&&&,\n"
  else
    concatAll ((extract_type_names sref).map (fun type_name =>
      if hmContainsKey s.defs type_name && !s.generics.contains type_name then
        "    \"" ++ removeSpaces (removeNewlines type_name) ++ "\": &&&" ++
          sanitizeUpper type_name ++ "&&&,\n"
      else ""))

/-- One rendered enum-variant block, given its effective discriminant
(schem.rs lines 303-377). -/
def variantBlock (s : Schema) (variant : SchemaVariant) (d : Int) : String :=
  "    \x7b\n      \"name\": \"" ++ variant.name ++ "\",\n      \"discriminant\": " ++
      toString d ++ ",\n      \"type\": \"struct\",\n      \"fields\": [\n" ++
    variantFieldsLoop s 0 variant.fields ++
    "      ],\n" ++
    "  \"definitions\": \x7b\n" ++
    concatAll (variant.fields.map (variantDefEntry s)) ++
    "        \x7d,\n" ++ "        \x7d,\n"

/-- Variant loop of the renderer (schem.rs lines 302-379), carrying the
mutable `variant_index`: an explicit discriminant overwrites the index, the
block is emitted with the current index, and the index is incremented for
the next variant. -/
def variantsLoop (s : Schema) : Int → List SchemaVariant → String
  | _, [] => ""
  | variant_index, variant :: rest =>
    let d := variant.discriminant.getD variant_index
    variantBlock s variant d ++ variantsLoop s (d + 1) rest

/-- Struct definitions loop (schem.rs lines 386-407), `none` modelling the
`panic!("def not found ...")` branch: each key is cleaned of newlines and
spaces and looked up again in the table; a failed lookup aborts. -/
def structDefsGo (table : List (String × String)) : List (String × String) → Option String
  | [] => some ""
  | (k, _) :: rest =>
    let kc := removeSpaces (removeNewlines k)
    let sd := sanitizeUpper kc
    if hmContainsKey table kc then
      (structDefsGo table rest).map
        (fun r =>
          "    \"" ++ removeSpaces (removeNewlines kc) ++ "\": &&&" ++ sd ++ "&&&,\n" ++ r)
    else none

/-- Generics section of the rendered document (schem.rs lines 412-425):
local generics first, then parent generics, each with a four-ampersand
placeholder. -/
def genericsPart (generics parent_generics : List String) : String :=
  "  \"generics\": \x7b\n" ++
    concatAll (generics.map (fun g => "    \"" ++ g ++ "\": &&&&" ++ g ++ "&&&&,\n")) ++
    concatAll
      (parent_generics.map (fun g => "    \"" ++ g ++ "\": &&&&" ++ g ++ "&&&&,\n")) ++
    "  \x7d\n\x7d"

/-- Rust `Schema::to_string` (schem.rs lines 268-428); `none` models the
panic in the struct definitions pass. -/
def Schema.to_string (s : Schema) : Option String :=
  let fieldsPart :=
    if s.stype = SchemaType.Struct then
      concatAll (s.fields.map (structFieldEntry s)) ++ "  ],\n"
    else ""
  let variantsPart :=
    if s.stype = SchemaType.Enum then variantsLoop s 0 s.variants ++ "    ],\n"
    else ""
  match (if s.stype = SchemaType.Struct then structDefsGo s.defs s.defs else some "") with
  | none => none
  | some defsBody =>
    let defsPart :=
      if s.stype = SchemaType.Struct then
        "  \"definitions\": \x7b\n" ++ defsBody ++ "  \x7d,\n"
      else ""
    some (headerPart s ++ fieldsPart ++ variantsPart ++ defsPart ++
      genericsPart s.generics s.parent_generics)

/-! ### The generated `schema(export)` function (lib.rs lines 274-574)

`generate_schem_fn` emits, for a derivation with a schema, a function that
starts from the rendered document, then replaces each definition
placeholder: for a self-reference (the definition's full type equals the
root type's name) it rewrites `#/definitions/<name>` to `#` and the
placeholder to `{}` (lib.rs lines 521-530); for any other definition it
substitutes the dependency's runtime-computed schema string (lines 531-537);
finally each local generic parameter's `&&&&NAME&&&&` placeholder is
substituted (lines 539-547).  The runtime-computed strings (a dependency's
`schema_var_name()` or inline `schema(false)` text, and a generic
parameter's schema) are inputs `depVal` and `genVal` of the model; the
derivation's own `syn` type parameters are `typeParams`.  Parent generics
have no counterpart in the replacement lists. -/

/-- Dependency placeholder as the generated code rebuilds it (lib.rs lines
295-303 and 526/533): the sanitised key, lower-cased, parsed as a token
stream (identity on identifiers) and upper-cased again. -/
def schemaVarToken (k : String) : String := "&&&" ++ upperStr (sanitizeLower k) ++ "&&&"

/-- Model of the generated `fn schema(export: bool) -> String` (lib.rs lines
548-562); `none` only when the renderer itself panics. -/
def schema_fn (s : Schema) (exportFlag : Bool) (depVal : String → String)
    (genVal : String → String) (typeParams : List String) : Option String :=
  (s.to_string).map (fun schemaStr =>
    let schem := if exportFlag then "const " ++ s.name ++ "Schema = " ++ schemaStr
      else schemaStr
    let schem := s.defs.foldl
      (fun acc kv =>
        if removeSpaces kv.2 == s.name then
          replaceAll (replaceAll acc ("#/definitions/" ++ removeSpaces kv.2) "#")
            (schemaVarToken kv.1) "\x7b\x7d"
        else replaceAll acc (schemaVarToken kv.1) (depVal kv.1))
      schem
    typeParams.foldl (fun acc g => replaceAll acc ("&&&&" ++ g ++ "&&&&") (genVal g)) schem)

/-! ### Claim-side definitions -/

/-- Effective enum discriminants as the specification states them: an
explicit discriminant is used as recorded, otherwise the previous effective
discriminant plus one, starting from the given index (0 for the first
variant). -/
def effectiveDiscriminants : Int → List (Option Int) → List Int
  | _, [] => []
  | idx, o :: os =>
    let d := o.getD idx
    d :: effectiveDiscriminants (d + 1) os

/-- Newline-freedom of a string (the property `syn` identifiers always
have, since a Rust identifier cannot contain whitespace). -/
def noNlStr (s : String) : Bool := s.data.all (fun c => c != '\n')

/-- All identifier and length strings occurring in a type expression are
newline-free. -/
def nlFree : RsType → Bool
  | .path segs => nlFree segs
  | .tuple elems => nlFree elems
  | .arr elem len => nlFree elem && noNlStr len
  | .snil => true
  | .scons name args rest => noNlStr name && nlFree args && nlFree rest
  | .tnil => true
  | .tcons head tail => nlFree head && nlFree tail

/-- Keys unaffected by the renderer's cleaning step (removing newlines and
spaces, schem.rs line 387, leaves them unchanged). -/
def keyClean (k : String) : Prop := removeSpaces (removeNewlines k) = k

/-- Every key of a definition table is clean. -/
def keysClean (m : List (String × String)) : Prop := ∀ kv ∈ m, keyClean kv.1

/-- Struct schema as the derive macro builds it: local generics registered
first (`add_generic` per type parameter), then one `add_field` per declared
field, starting from `Schema::new`. -/
def buildStructSchema (name : String) (generics : List String)
    (flds : List (String × RsType)) : Schema :=
  flds.foldl (fun s f => s.add_field f.1 f.2)
    (generics.foldl Schema.add_generic (Schema.new name SchemaType.Struct))

/-! ### Concrete fixtures used by the claim theorems -/

/-- Bare one-segment path type (e.g. `MyObject`). -/
def pathOf (name : String) : RsType := RsType.path (.scons name .tnil .snil)

/-- Rust `Vec<t>` as a type expression. -/
def vecOf (t : RsType) : RsType := RsType.path (.scons "Vec" (.tcons t .tnil) .snil)

/-- Schema of `struct MyObject { family: Vec<MyObject> }`, the recursive
self-reference fixture. -/
def myObjectSchema : Schema :=
  (Schema.new "MyObject" SchemaType.Struct).add_field "family" (vecOf (pathOf "MyObject"))

/-- Fully substituted schema string of `MyObject` for given runtime inputs. -/
def myObjectRendered (exportFlag : Bool) (depVal genVal : String → String) : String :=
  (schema_fn myObjectSchema exportFlag depVal genVal []).getD ""

/-- Schema of `struct S { a: Vec<AType>, b: Vec<BType> }`; its definition
table holds the two keys in the iteration order `AType`, `BType`. -/
def orderSchemaAB : Schema :=
  ((Schema.new "S" SchemaType.Struct).add_field "a" (vecOf (pathOf "AType"))).add_field "b"
    (vecOf (pathOf "BType"))

/-- The same schema state with the opposite definition-table iteration
order (the table agrees with `orderSchemaAB`'s as a set of pairs). -/
def orderSchemaBA : Schema :=
  { orderSchemaAB with defs := [("BType", "BType"), ("AType", "AType")] }

/-- Schema of a struct `Wrapper` whose field uses the parent generic `P`
(the workflow described in the source's own doc comment, schem.rs lines
42-56): `add_parent_generics(["P"])`, then a field of type `P`. -/
def wrapperSchema : Schema :=
  ((Schema.new "Wrapper" SchemaType.Struct).add_parent_generics ["P"]).add_field "value"
    (pathOf "P")

/-- Schema of `struct Point<T> { time: u64, value: T }`. -/
def pointSchema : Schema :=
  (((Schema.new "Point" SchemaType.Struct).add_generic "T").add_field "time"
      (pathOf "u64")).add_field "value" (pathOf "T")

/-- Rendered document of `Point<T>` (the renderer succeeds on it). -/
def pointDoc : String := (pointSchema.to_string).getD ""

/-- Schema with local generic `T` (used by the duplicate-generic fixture). -/
def genTSchema : Schema := (Schema.new "S" SchemaType.Struct).add_generic "T"

/-- The qualified associated-type expression `T::Item`. -/
def tItemTy : RsType := RsType.path (.scons "T" .tnil (.scons "Item" .tnil .snil))

/-- Schema of `struct Holder<T> { x: T::Item }`. -/
def tItemHolderSchema : Schema :=
  ((Schema.new "Holder" SchemaType.Struct).add_generic "T").add_field "x" tItemTy

/-- Schema of the enum `A, B { foo: String, bar: f64 } = 5, C(SimpleRef)`:
variant `B` carries the explicit discriminant 5. -/
def complexEnumSchema : Schema :=
  (((Schema.new "ComplexEnum" SchemaType.Enum).add_variant "A" [] none).add_variant "B"
      [("foo", pathOf "String"), ("bar", pathOf "f64")] (some 5)).add_variant "C"
    [("", pathOf "SimpleRef")] none

/-- Field list of a representative struct derivation (used as the C10
witness input). -/
def sampleFields : List (String × RsType) :=
  [("role", pathOf "Role"), ("family", vecOf (pathOf "User")), ("x", tItemTy),
    ("m", RsType.path (.scons "HashMap"
      (.tcons (pathOf "String") (.tcons (pathOf "Role") .tnil)) .snil))]

/-! ### Helper lemmas -/

/-- Folding `add_parent_generics` over a singleton list is one conditional
step. -/
theorem add_parent_generics_singleton (s : Schema) (g : String) :
    s.add_parent_generics [g] =
      (if s.parent_generics.contains g then s
       else { s with parent_generics := s.parent_generics ++ [g] }) := rfl

/-! ### Claim theorems -/

/-- C1, counterexample: for the self-referential derivation
`struct MyObject { family: Vec<MyObject> }` the fully substituted schema
string does *not* resolve the definitions entry for `MyObject` to the
literal JSON self-pointer `"#"` (nor to a bare `#`): the entry reads
`"MyObject": {},`. -/
theorem c1_counterexample :
    hasSub (myObjectRendered false (fun _ => "") (fun _ => "")) "\"MyObject\": \"#\"" = false ∧
    hasSub (myObjectRendered false (fun _ => "") (fun _ => "")) "\"MyObject\": #" = false ∧
    hasSub (myObjectRendered false (fun _ => "") (fun _ => ""))
      "\"MyObject\": \x7b\x7d,\n" = true := by
  decide

/-- C1, amended: for the self-referential derivation, whatever the export
flag and the runtime dependency/generic inputs, the substituted document
resolves the self-referential definitions entry to the literal `{}`,
rewrites every `#/definitions/MyObject` occurrence to `#` (the field type
reads `"Vec<#>"` and no `#/definitions/` path survives), and contains no
residual reserved placeholder token (`&&&`-delimited, which also covers the
`&&&&`-delimited generic placeholders). -/
theorem c1_amended_theorem :
    ∀ (exportFlag : Bool) (depVal genVal : String → String),
      hasSub (myObjectRendered exportFlag depVal genVal) "\"MyObject\": \x7b\x7d,\n" = true ∧
      hasSub (myObjectRendered exportFlag depVal genVal) "#/definitions/" = false ∧
      hasSub (myObjectRendered exportFlag depVal genVal) "\"Vec<#>\"" = true ∧
      hasSub (myObjectRendered exportFlag depVal genVal) "&&&" = false := by
  intro exportFlag depVal genVal
  cases exportFlag <;> exact ⟨rfl, rfl, rfl, rfl⟩

/-- C2: two schema states that agree on name, kind, fields, variants, local
and parent generics, and whose definition tables are equal as sets of
key-value pairs (they are permutations) render different strings: the
renderer emits the definitions section in table iteration order without
canonicalisation. -/
theorem c2_theorem :
    orderSchemaAB.name = orderSchemaBA.name ∧
    orderSchemaAB.stype = orderSchemaBA.stype ∧
    orderSchemaAB.generics = orderSchemaBA.generics ∧
    orderSchemaAB.parent_generics = orderSchemaBA.parent_generics ∧
    orderSchemaAB.fields = orderSchemaBA.fields ∧
    orderSchemaAB.variants = orderSchemaBA.variants ∧
    orderSchemaAB.defs.Perm orderSchemaBA.defs ∧
    orderSchemaAB.to_string ≠ orderSchemaBA.to_string := by
  refine ⟨rfl, rfl, rfl, rfl, rfl, rfl, ?_, by decide⟩
  show List.Perm [("AType", "AType"), ("BType", "BType")]
    [("BType", "BType"), ("AType", "AType")]
  exact List.Perm.swap _ _ _

/-- C3, counterexample: `replace_types` is not idempotent: applied to its
own output on `Option<Vec<User>>` (with `User` registered) it rewrites the
`User` token a second time. -/
theorem c3_counterexample :
    replace_types (replace_types "Option<Vec<User>>" ["User"] [] []) ["User"] [] [] ≠
      replace_types "Option<Vec<User>>" ["User"] [] [] := by
  decide

/-- C3, amended: with `User` registered and no generics,
`replace_types("Option<Vec<User>>")` yields
`Option<Vec<#/definitions/User>>`; re-running on that output is *not* the
identity: the bare `User` token inside the already-rewritten path is
prefixed again, yielding `Option<Vec<#/definitions/#/definitions/User>>`. -/
theorem c3_amended_theorem :
    replace_types "Option<Vec<User>>" ["User"] [] [] = "Option<Vec<#/definitions/User>>" ∧
    replace_types "Option<Vec<#/definitions/User>>" ["User"] [] [] =
      "Option<Vec<#/definitions/#/definitions/User>>" := by
  decide

/-- C4: the generated substitution pass never aborts on residual
placeholders: for the `Wrapper` derivation with parent generic `P` (whose
`&&&&P&&&&` placeholder has no replacement in the generated function), the
function returns successfully for every export flag and all runtime inputs,
and the returned document still contains the reserved placeholder token. -/
theorem c4_theorem :
    ∀ (exportFlag : Bool) (depVal genVal : String → String),
      ∃ out, schema_fn wrapperSchema exportFlag depVal genVal [] = some out ∧
        hasSub out "&&&&P&&&&" = true := by
  intro exportFlag depVal genVal
  cases exportFlag <;> exact ⟨_, rfl, rfl⟩

/-- C6, counterexample: registering the parent generic `T` on a schema
whose local generics already contain `T` is *not* a no-op: `T` is appended
to the parent set and afterwards appears in both sets. -/
theorem c6_counterexample :
    genTSchema.add_parent_generics ["T"] ≠ genTSchema ∧
    (genTSchema.add_parent_generics ["T"]).generics.contains "T" = true ∧
    (genTSchema.add_parent_generics ["T"]).parent_generics.contains "T" = true := by
  decide

/-- C6, amended: `add_parent_generics` deduplicates only against the
parent-generics list itself: registering a name already in the parent set
is a no-op, while a fresh name is appended to the parent set regardless of
the local set (so a name can end up in both sets). -/
theorem c6_amended_theorem :
    ∀ (s : Schema) (g : String),
      (s.parent_generics.contains g = true → s.add_parent_generics [g] = s) ∧
      (s.parent_generics.contains g = false →
        (s.add_parent_generics [g]).parent_generics = s.parent_generics ++ [g] ∧
        (s.add_parent_generics [g]).generics = s.generics ∧
        (s.add_parent_generics [g]).defs = s.defs) := by
  intro s g
  constructor
  · intro h
    rw [add_parent_generics_singleton, if_pos h]
  · intro h
    rw [add_parent_generics_singleton, if_neg (by simpa using h)]
    exact ⟨rfl, rfl, rfl⟩

/-- C6, witness: the amended theorem applied to the schema with local
generic `T` and the fresh parent name `P`. -/
theorem c6_witness :
    (genTSchema.add_parent_generics ["P"]).parent_generics =
      genTSchema.parent_generics ++ ["P"] ∧
    (genTSchema.add_parent_generics ["P"]).generics = genTSchema.generics ∧
    (genTSchema.add_parent_generics ["P"]).defs = genTSchema.defs :=
  (c6_amended_theorem genTSchema "P").2 (by decide)

/-- C7, counterexample: for `struct Holder<T> { x: T::Item }` nothing is
registered in the definition table, but the recorded field reference is the
bare last segment `Item`, not the full path text (`T :: Item` as the token
stream prints it, `T::Item` space-stripped). -/
theorem c7_counterexample :
    tItemHolderSchema.defs = [] ∧
    tItemHolderSchema.fields = [{ name := "x", sref := SchemaFieldRef.Refs "Item" }] ∧
    (SchemaFieldRef.Refs "Item" : SchemaFieldRef) ≠ SchemaFieldRef.Refs "T :: Item" ∧
    (SchemaFieldRef.Refs "Item" : SchemaFieldRef) ≠ SchemaFieldRef.Refs "T::Item" := by
  decide

/-- C8: evaluated on the rendered document of `struct Point<T>` — whose
top-level generics section has exactly the key `T` — the parent-generic
parser returns the empty list, not the generics-section key names: it scans
for the literal marker `"parent_generics":[`, which `to_string` never
emits. -/
theorem c8_theorem :
    hasSub pointDoc "\"generics\": \x7b\n    \"T\": &&&&T&&&&,\n" = true ∧
    hasSub pointDoc "\"parent_generics\"" = false ∧
    parse_parent_generics_from_schema pointDoc = [] ∧
    parse_parent_generics_from_schema pointDoc ≠ ["T"] := by
  decide

/-- With `p` absent from the definition set, a token equal to `p` can never
satisfy a definition lookup. -/
theorem beq_false_of_not_in_defs (d : List String) (p x : String)
    (hp : d.contains p = false) (hd : d.contains x = true) : (x == p) = false := by
  cases hb : x == p
  · rfl
  · rw [eq_of_beq hb] at hd
    rw [hd] at hp
    cases hp

/-- Moving a name between the generic sets leaves the disjunctive `::`
check of `replace_types` unchanged. -/
theorem contains_swap_pair (g pg : List String) (p x : String) :
    (g.contains x || (p :: pg).contains x) = ((p :: g).contains x || pg.contains x) := by
  simp only [List.contains_cons]
  cases x == p <;> cases g.contains x <;> cases pg.contains x <;> rfl

/-- Moving a name absent from the definition set between the generic sets
leaves the whole-string check of `replace_types` unchanged. -/
theorem contains_swap_triple (d g pg : List String) (p x : String)
    (hp : d.contains p = false) :
    (d.contains x && !g.contains x && !(p :: pg).contains x) =
      (d.contains x && !(p :: g).contains x && !pg.contains x) := by
  simp only [List.contains_cons]
  cases hd : d.contains x
  · rfl
  · rw [beq_false_of_not_in_defs d p x hp hd]
    cases g.contains x <;> cases pg.contains x <;> rfl

/-- Moving a name absent from the definition set into the local generic set
leaves the token check of `replace_types`'s character loop unchanged. -/
theorem contains_swap_tok (d g : List String) (p x : String)
    (hp : d.contains p = false) :
    (d.contains x && !g.contains x) = (d.contains x && !(p :: g).contains x) := by
  simp only [List.contains_cons]
  cases hd : d.contains x
  · rfl
  · rw [beq_false_of_not_in_defs d p x hp hd]
    rfl

/-- Swap lemma for the fueled `replace_types`: a name that is not a
definition key behaves identically as a parent generic and as a local
generic, at every fuel, in both phases. -/
theorem replace_typesF_swap (n : Nat) :
    ∀ (mode : Bool) (cs : List Char) (defs generics parent_generics : List String)
      (p : String),
      defs.contains p = false →
      replace_typesF mode n cs defs generics (p :: parent_generics) =
        replace_typesF mode n cs defs (p :: generics) parent_generics := by
  induction n with
  | zero => intro mode cs d g pg p hp; cases mode <;> rfl
  | succ n ih =>
    intro mode cs d g pg p hp
    have IH := fun mode cs => ih mode cs d g pg p hp
    cases mode with
    | true =>
      simp only [replace_typesF]
      rw [contains_swap_triple d g pg p _ hp, contains_swap_pair g pg p _]
      simp only [IH]
    | false =>
      cases cs with
      | nil => rfl
      | cons c rest =>
        simp only [replace_typesF]
        rw [contains_swap_tok d g p _ hp]
        simp only [IH]

/-- C5, amended: provided the name is not itself a definition key (which
`process_type` guarantees for generic parameters, since it never registers
them), `replace_types` treats a parent-generic name exactly as a
local-generic name: moving the name from the parent set to the local set
does not change the output on any type-reference string.  (Without that
proviso the claim fails: the character loop's token check consults only the
local set, see the counterexample.) -/
theorem c5_amended_theorem :
    ∀ (sref : String) (defs generics parent_generics : List String) (p : String),
      defs.contains p = false →
      replace_types sref defs generics (p :: parent_generics) =
        replace_types sref defs (p :: generics) parent_generics := by
  intro sref d g pg p hp
  exact replace_typesF_swap _ true _ _ _ _ _ hp

/-- C5, counterexample: a parent-generic name that is also a definition key
is rewritten to a `#/definitions/` path, while the same name as a local
generic is left alone — parent generics are *not* excluded identically to
local generics. -/
theorem c5_counterexample :
    replace_types "P" ["P"] [] ["P"] = "#/definitions/P" ∧
    replace_types "P" ["P"] ["P"] [] = "P" := by
  decide

/-- C5, witness: the amended theorem at a nested occurrence
(`Option<Vec<P>>` with parent generic `P` not registered as a definition). -/
theorem c5_witness :
    (["User"] : List String).contains "P" = false ∧
    replace_types "Option<Vec<P>>" ["User"] [] ["P"] =
      replace_types "Option<Vec<P>>" ["User"] ["P"] [] :=
  ⟨by decide, c5_amended_theorem "Option<Vec<P>>" ["User"] [] [] "P" (by decide)⟩

/-- C7, amended: a multi-segment path type whose first segment names a
declared local generic registers nothing in the definition table, and the
recorded field reference is `remove_create_type_path`'s output — the
*last* path segment's simplified form (the qualifying prefix is stripped),
emitted unresolved — not the full path text. -/
theorem c7_amended_theorem :
    ∀ (s : Schema) (fname name1 : String) (args1 : RsType) (m : String) (a rest : RsType),
      s.generics.contains name1 = true →
      (s.add_field fname (RsType.path (.scons name1 args1 (.scons m a rest)))).defs = s.defs ∧
      (s.add_field fname (RsType.path (.scons name1 args1 (.scons m a rest)))).fields =
        s.fields ++
          [{ name := fname,
             sref := SchemaFieldRef.Refs (simplifyType (RsType.scons m a rest)) }] := by
  intro s fname name1 args1 m a rest hg
  have hproc :
      s.process_type (RsType.path (.scons name1 args1 (.scons m a rest))) = s := by
    simp only [Schema.process_type, astSize, process_typeF]
    by_cases hskip :
        skipType s (tokStr (RsType.path (.scons name1 args1 (.scons m a rest)))) = true
    · rw [if_pos hskip]
    · rw [if_neg hskip, if_pos ?hc]
      case hc =>
        simp only [segsLen, firstSegName, Bool.and_eq_true, decide_eq_true_eq]
        exact ⟨by omega, hg⟩
  constructor
  · simp only [Schema.add_field, hproc]
  · simp only [Schema.add_field, hproc, mkFieldRef, remove_create_type_path, simplifyType]

/-- C7, witness: the amended theorem applied to
`struct Holder2<T> { x: T::Item }`. -/
theorem c7_witness :
    ((Schema.new "Holder2" SchemaType.Struct).add_generic "T").generics.contains "T" = true ∧
    ((((Schema.new "Holder2" SchemaType.Struct).add_generic "T").add_field "x"
        (RsType.path (.scons "T" .tnil (.scons "Item" .tnil .snil)))).defs =
      ((Schema.new "Holder2" SchemaType.Struct).add_generic "T").defs ∧
    (((Schema.new "Holder2" SchemaType.Struct).add_generic "T").add_field "x"
        (RsType.path (.scons "T" .tnil (.scons "Item" .tnil .snil)))).fields =
      ((Schema.new "Holder2" SchemaType.Struct).add_generic "T").fields ++
        [{ name := "x",
           sref := SchemaFieldRef.Refs (simplifyType (RsType.scons "Item" .tnil .snil)) }]) :=
  ⟨by decide,
    c7_amended_theorem ((Schema.new "Holder2" SchemaType.Struct).add_generic "T") "x" "T"
      .tnil "Item" .tnil .snil (by decide)⟩

/-- Unrolling the renderer's variant loop: the `variant_index` accumulator
computes exactly the effective-discriminant sequence of the specification,
so the loop renders each variant block with its effective discriminant. -/
theorem variantsLoop_eq (s : Schema) (vs : List SchemaVariant) :
    ∀ idx : Int,
      variantsLoop s idx vs =
        concatAll
          ((vs.zip (effectiveDiscriminants idx (vs.map SchemaVariant.discriminant))).map
            (fun pr => variantBlock s pr.1 pr.2)) := by
  induction vs with
  | nil => intro idx; rfl
  | cons v rest ih =>
    intro idx
    simp only [variantsLoop, List.map_cons, effectiveDiscriminants, List.zip_cons_cons,
      List.zip_eq_zipWith, concatAll, ih]

/-- C9: for every enum schema, the rendered document consists of the
header, then one block per variant in declaration order whose rendered
discriminant is the claim's effective discriminant — the explicit integer
discriminant when one was recorded, and otherwise the previous variant's
effective discriminant plus 1, starting from 0 — followed by the generics
section. -/
theorem c9_theorem (s : Schema) (h : s.stype = SchemaType.Enum) :
    s.to_string =
      some (headerPart s ++
        concatAll
          ((s.variants.zip
              (effectiveDiscriminants 0 (s.variants.map SchemaVariant.discriminant))).map
            (fun pr => variantBlock s pr.1 pr.2)) ++
        "    ],\n" ++ genericsPart s.generics s.parent_generics) := by
  have hne : ¬ s.stype = SchemaType.Struct := by rw [h]; intro hc; cases hc
  simp only [Schema.to_string, if_neg hne, if_pos h, variantsLoop_eq,
    String.append_empty, String.empty_append, String.append_assoc]

/-- C9, witness: the theorem at the enum `A, B { foo: String, bar: f64 } = 5,
C(SimpleRef)`, together with the claim's example sequences: the effective
discriminants are `0, 5, 6`, and without the explicit discriminant they
would be `0, 1, 2`. -/
theorem c9_witness :
    (complexEnumSchema.to_string =
      some (headerPart complexEnumSchema ++
        concatAll
          ((complexEnumSchema.variants.zip
              (effectiveDiscriminants 0
                (complexEnumSchema.variants.map SchemaVariant.discriminant))).map
            (fun pr => variantBlock complexEnumSchema pr.1 pr.2)) ++
        "    ],\n" ++
        genericsPart complexEnumSchema.generics complexEnumSchema.parent_generics)) ∧
    effectiveDiscriminants 0 [none, some 5, none] = [0, 5, 6] ∧
    effectiveDiscriminants 0 [none, none, none] = [0, 1, 2] :=
  ⟨c9_theorem complexEnumSchema rfl, by decide, by decide⟩

/-! ### Newline-freedom lemmas for the C10 safety argument -/

@[simp] theorem noNlStr_append (a b : String) :
    noNlStr (a ++ b) = (noNlStr a && noNlStr b) := by
  simp [noNlStr, String.data_append, List.all_append]

@[simp] theorem noNl_empty : noNlStr "" = true := by decide

@[simp] theorem noNl_lparen : noNlStr "(" = true := by decide

@[simp] theorem noNl_rparen : noNlStr ")" = true := by decide

@[simp] theorem noNl_lbrack : noNlStr "[" = true := by decide

@[simp] theorem noNl_rbrack : noNlStr "]" = true := by decide

@[simp] theorem noNl_semi : noNlStr " ; " = true := by decide

@[simp] theorem noNl_colons : noNlStr " :: " = true := by decide

@[simp] theorem noNl_langle : noNlStr " < " = true := by decide

@[simp] theorem noNl_rangle : noNlStr " >" = true := by decide

@[simp] theorem noNl_commasp : noNlStr " , " = true := by decide

@[simp] theorem noNl_lt : noNlStr "<" = true := by decide

@[simp] theorem noNl_gt : noNlStr ">" = true := by decide

@[simp] theorem noNl_commaspace : noNlStr ", " = true := by decide

/-- Token-stream text of a newline-free type expression is newline-free. -/
theorem tokStr_noNl : ∀ t : RsType, nlFree t = true → noNlStr (tokStr t) = true := by
  intro t
  induction t with
  | path segs ih => exact fun hf => ih hf
  | tuple elems ih =>
    intro hf
    have h1 : noNlStr (tokStr elems) = true := ih hf
    simp [tokStr, h1]
  | arr elem len ih =>
    intro hf
    simp only [nlFree, Bool.and_eq_true] at hf
    have h1 : noNlStr (tokStr elem) = true := ih hf.1
    simp [tokStr, h1, hf.2]
  | snil => intro _; decide
  | scons name args rest iha ihr =>
    intro hf
    simp only [nlFree, Bool.and_eq_true] at hf
    obtain ⟨⟨hn, ha⟩, hr⟩ := hf
    have h1 : noNlStr (tokStr args) = true := iha ha
    have h2 : noNlStr (tokStr rest) = true := ihr hr
    cases rest <;> cases args <;> simp_all [tokStr]
  | tnil => intro _; decide
  | tcons head tail ih1 ih2 =>
    intro hf
    simp only [nlFree, Bool.and_eq_true] at hf
    have h1 : noNlStr (tokStr head) = true := ih1 hf.1
    have h2 : noNlStr (tokStr tail) = true := ih2 hf.2
    cases tail <;> simp_all [tokStr]

/-- Simplified (`remove_create_type_path`) text of a newline-free type
expression is newline-free. -/
theorem simplifyType_noNl : ∀ t : RsType, nlFree t = true → noNlStr (simplifyType t) = true := by
  intro t
  induction t with
  | path segs ih => exact fun hf => ih hf
  | tuple elems _ =>
    intro hf
    exact tokStr_noNl (RsType.tuple elems) hf
  | arr elem len _ =>
    intro hf
    exact tokStr_noNl (RsType.arr elem len) hf
  | snil => intro _; decide
  | scons name args rest iha ihr =>
    intro hf
    simp only [nlFree, Bool.and_eq_true] at hf
    obtain ⟨⟨hn, ha⟩, hr⟩ := hf
    have h1 : noNlStr (simplifyType args) = true := iha ha
    have h2 : noNlStr (simplifyType rest) = true := ihr hr
    cases rest <;> cases args <;> simp_all [simplifyType, nlFree]
  | tnil => intro _; decide
  | tcons head tail ih1 ih2 =>
    intro hf
    simp only [nlFree, Bool.and_eq_true] at hf
    have h1 : noNlStr (simplifyType head) = true := ih1 hf.1
    have h2 : noNlStr (simplifyType tail) = true := ih2 hf.2
    cases tail <;> simp_all [simplifyType]

/-- Removing spaces preserves newline-freedom. -/
theorem noNl_removeSpaces (s : String) (h : noNlStr s = true) :
    noNlStr (removeSpaces s) = true := by
  simp only [noNlStr, List.all_eq_true] at h ⊢
  intro c hc
  exact h c (List.mem_filter.mp hc).1

/-- Removing newlines from a newline-free string is the identity. -/
theorem removeNewlines_id (s : String) (h : noNlStr s = true) : removeNewlines s = s := by
  simp only [noNlStr, List.all_eq_true, bne_iff_ne] at h
  unfold removeNewlines
  rw [List.filter_eq_self.mpr (fun c hc => decide_eq_true (h c hc))]

/-- Removing spaces twice is the same as removing them once. -/
theorem removeSpaces_idem (s : String) : removeSpaces (removeSpaces s) = removeSpaces s := by
  unfold removeSpaces removeSpacesL
  rw [List.filter_eq_self.mpr (fun c hc => (List.mem_filter.mp hc).2)]

/-- Keys produced by `process_type` — a space-stripped newline-free string —
are unaffected by the renderer's cleaning step. -/
theorem keyClean_of_noNl (u : String) (h : noNlStr u = true) : keyClean (removeSpaces u) := by
  unfold keyClean
  rw [removeNewlines_id (removeSpaces u) (noNl_removeSpaces u h), removeSpaces_idem]

/-- `HashMap::insert` with a clean key preserves cleanliness of the key set. -/
theorem hmInsert_keysClean (m : List (String × String)) (k v : String)
    (hm : keysClean m) (hk : keyClean k) : keysClean (hmInsert m k v) := by
  unfold hmInsert
  split
  · intro kv hkv
    obtain ⟨kv', hkv', hmap⟩ := List.mem_map.mp hkv
    by_cases hb : (kv'.1 == k) = true
    · rw [if_pos hb] at hmap
      rw [← hmap]
      exact hk
    · rw [if_neg hb] at hmap
      rw [← hmap]
      exact hm kv' hkv'
  · intro kv hkv
    rcases List.mem_append.mp hkv with hin | hnew
    · exact hm kv hin
    · rw [List.mem_singleton.mp hnew]
      exact hk

/-- Newline-freedom propagates to the generic arguments of the last path
segment. -/
theorem nlFree_lastSegArgs : ∀ segs : RsType, nlFree segs = true →
    nlFree (lastSegArgs segs) = true := by
  intro segs
  induction segs with
  | scons name args rest iha ihr =>
    intro hf
    simp only [nlFree, Bool.and_eq_true] at hf
    obtain ⟨⟨hn, ha⟩, hr⟩ := hf
    cases rest <;> simp_all [lastSegArgs]
  | path segs ih => intro _; rfl
  | tuple elems ih => intro _; rfl
  | arr elem len ih => intro _; rfl
  | snil => intro _; rfl
  | tnil => intro _; rfl
  | tcons head tail ih1 ih2 => intro _; rfl

/-- `process_type` changes only the definition table, and every key it
inserts is clean: the schema's other components and the cleanliness of the
key set are preserved, at every fuel. -/
theorem process_typeF_inv : ∀ (n : Nat) (s : Schema) (t : RsType),
    keysClean s.defs → nlFree t = true →
    keysClean (process_typeF n s t).defs ∧ (process_typeF n s t).stype = s.stype := by
  intro n
  induction n with
  | zero => intro s t hc _; exact ⟨hc, rfl⟩
  | succ n ih =>
    intro s t hc hf
    cases t with
    | tcons head tail =>
      simp only [nlFree, Bool.and_eq_true] at hf
      have h1 := ih s head hc hf.1
      have h2 := ih (process_typeF n s head) tail h1.1 hf.2
      exact ⟨h2.1, h2.2.trans h1.2⟩
    | tnil => exact ⟨hc, rfl⟩
    | snil => exact ⟨hc, rfl⟩
    | scons name args rest => exact ⟨hc, rfl⟩
    | arr elem len => exact ⟨hc, rfl⟩
    | tuple elems =>
      simp only [process_typeF]
      split
      · exact ⟨hc, rfl⟩
      · exact ih s elems hc hf
    | path segs =>
      have hargs : nlFree (lastSegArgs segs) = true := nlFree_lastSegArgs segs hf
      simp only [process_typeF]
      split
      · exact ⟨hc, rfl⟩
      · split
        · exact ⟨hc, rfl⟩
        · split
          · exact ih s (lastSegArgs segs) hc hargs
          · have hkey : keyClean (removeSpaces (remove_create_type_path segs)) :=
              keyClean_of_noNl _ (simplifyType_noNl (RsType.path segs) hf)
            have hc' : keysClean (hmInsert s.defs
                (removeSpaces (remove_create_type_path segs))
                (removeSpaces (tokStr (RsType.path segs)))) :=
              hmInsert_keysClean _ _ _ hc hkey
            exact ih _ (lastSegArgs segs) hc' hargs

/-- The struct definitions loop cannot reach its panic branch when every key
of the table is clean and the traversed entries come from the table. -/
theorem structDefsGo_isSome : ∀ (table rest : List (String × String)),
    keysClean table → (∀ kv ∈ rest, kv ∈ table) →
    (structDefsGo table rest).isSome = true := by
  intro table rest hc
  induction rest with
  | nil => intro _; rfl
  | cons kv rest ih =>
    intro hsub
    obtain ⟨k, v⟩ := kv
    have hkmem : (k, v) ∈ table := hsub (k, v) (List.mem_cons_self _ _)
    have hk : removeSpaces (removeNewlines k) = k := hc (k, v) hkmem
    have hcont : hmContainsKey table k = true := by
      unfold hmContainsKey
      exact List.any_eq_true.mpr ⟨(k, v), hkmem, by simp⟩
    simp only [structDefsGo, hk]
    rw [if_pos hcont]
    have hrest := ih (fun kv h => hsub kv (List.mem_cons_of_mem _ h))
    cases hgo : structDefsGo table rest with
    | none => rw [hgo] at hrest; cases hrest
    | some body => simp [hgo]

/-- Registering generic parameters leaves the definition table and the
schema kind unchanged. -/
theorem foldl_add_generic_inv : ∀ (gs : List String) (s : Schema),
    (gs.foldl Schema.add_generic s).defs = s.defs ∧
    (gs.foldl Schema.add_generic s).stype = s.stype := by
  intro gs
  induction gs with
  | nil => intro s; exact ⟨rfl, rfl⟩
  | cons g gs ih =>
    intro s
    have h1 : (Schema.add_generic s g).defs = s.defs ∧
        (Schema.add_generic s g).stype = s.stype := by
      unfold Schema.add_generic
      split
      · exact ⟨rfl, rfl⟩
      · exact ⟨rfl, rfl⟩
    have h2 := ih (Schema.add_generic s g)
    simp only [List.foldl_cons]
    exact ⟨h2.1.trans h1.1, h2.2.trans h1.2⟩

/-- One `add_field` preserves key-set cleanliness and the schema kind, given
a newline-free field type. -/
theorem add_field_inv (s : Schema) (nm : String) (t : RsType)
    (hc : keysClean s.defs) (hf : nlFree t = true) :
    keysClean (s.add_field nm t).defs ∧ (s.add_field nm t).stype = s.stype := by
  have h := process_typeF_inv (astSize t) s t hc hf
  exact ⟨h.1, h.2⟩

/-- Folding `add_field` over newline-free field types preserves key-set
cleanliness and the schema kind. -/
theorem foldl_add_field_inv : ∀ (flds : List (String × RsType)) (s : Schema),
    keysClean s.defs → (∀ f ∈ flds, nlFree f.2 = true) →
    keysClean ((flds.foldl (fun s f => s.add_field f.1 f.2) s).defs) ∧
    (flds.foldl (fun s f => s.add_field f.1 f.2) s).stype = s.stype := by
  intro flds
  induction flds with
  | nil => intro s hc _; exact ⟨hc, rfl⟩
  | cons f flds ih =>
    intro s hc hf
    have h1 := add_field_inv s f.1 f.2 hc (hf f (List.mem_cons_self _ _))
    have h2 := ih (s.add_field f.1 f.2) h1.1 (fun g hg => hf g (List.mem_cons_of_mem _ hg))
    simp only [List.foldl_cons]
    exact ⟨h2.1, h2.2.trans h1.2⟩

/-- C10: for every struct derivation whose definition table is populated
only through `process_type` on field types whose identifiers are
newline-free (as `syn` identifiers always are), every key survives the
renderer's newline-and-space cleaning unchanged, the `contains_key` check
of the struct definitions pass always succeeds, and rendering never reaches
the `def not found` panic: `to_string` returns a document. -/
theorem c10_theorem :
    ∀ (name : String) (generics : List String) (flds : List (String × RsType)),
      (∀ f ∈ flds, nlFree f.2 = true) →
      ((buildStructSchema name generics flds).to_string).isSome = true := by
  intro nm gens flds hf
  have hbase := foldl_add_generic_inv gens (Schema.new nm SchemaType.Struct)
  have hkc0 : keysClean ((gens.foldl Schema.add_generic (Schema.new nm SchemaType.Struct)).defs) := by
    rw [hbase.1]
    intro kv hkv
    cases hkv
  have hinv := foldl_add_field_inv flds _ hkc0 hf
  have hst : (buildStructSchema nm gens flds).stype = SchemaType.Struct := by
    unfold buildStructSchema
    rw [hinv.2, hbase.2]
    rfl
  have hds : (structDefsGo (buildStructSchema nm gens flds).defs
      (buildStructSchema nm gens flds).defs).isSome = true :=
    structDefsGo_isSome _ _ hinv.1 (fun kv h => h)
  obtain ⟨body, hbody⟩ := Option.isSome_iff_exists.mp hds
  simp [Schema.to_string, hst, hbody]

/-- C10, witness: the theorem at a representative struct derivation with a
generic parameter, a nominal field, a container field, a qualified
associated type and a two-parameter map. -/
theorem c10_witness :
    (∀ f ∈ sampleFields, nlFree f.2 = true) ∧
    ((buildStructSchema "User" ["T"] sampleFields).to_string).isSome = true :=
  ⟨by decide, c10_theorem "User" ["T"] sampleFields (by decide)⟩
